import Mathlib

/-!
Verification development for the mlb-stats-backend statistics query and
leaderboard engine.  The definitions below are shallow embeddings of the
functions in the client script (text matching, search, merge engine,
leaderboard ranking, selection state and persistence).  Strings are modelled
as lists of characters; JavaScript numeric fields that may be null, undefined
or NaN are modelled as `Option Rat` (all three absent cases collapse to
`none`, which is exactly how the code treats them after its
`typeof x === "number" && !Number.isNaN(x)` guards).
-/

/-! ## TextMatcher -/

/-- Character class kept by `normalizeText`: `[a-z0-9]` after lowercasing. -/
def isAlnumLower (c : Char) : Bool :=
  (('a' ≤ c) && (c ≤ 'z')) || (('0' ≤ c) && (c ≤ '9'))

/-- Embedding of `normalizeText`: lowercase, then strip everything outside
`[a-z0-9]`.  (`value.toLowerCase().replace(/[^a-z0-9]/g, "")`). -/
def normalizeText (s : List Char) : List Char :=
  (s.map Char.toLower).filter isAlnumLower

/-- Classic Levenshtein distance (insert, delete, substitute each cost 1).
The source computes it with a dynamic-programming table over string positions
realising exactly this recurrence; the early exits in the source
(`a === b -> 0`, an empty side returns the other length) agree with it. -/
def levenshteinDist : List Char → List Char → Nat
  | [], b => b.length
  | a :: as, [] => (a :: as).length
  | a :: as, b :: bs =>
      min (min (levenshteinDist as (b :: bs) + 1) (levenshteinDist (a :: as) bs + 1))
        (levenshteinDist as bs + (if a = b then 0 else 1))
  termination_by a b => a.length + b.length
  decreasing_by all_goals (simp [List.length_cons]; try omega)

/-- Does the first list occur at the head of the second list. -/
def leadMatch : List Char → List Char → Bool
  | [], _ => true
  | _ :: _, [] => false
  | a :: as, b :: bs => (a = b) && leadMatch as bs

/-- JavaScript `hay.includes(needle)`: the needle occurs contiguously in the
haystack. -/
def hasSubstr (needle : List Char) : List Char → Bool
  | [] => needle.isEmpty
  | c :: t => leadMatch needle (c :: t) || hasSubstr needle t

/-- Split into maximal runs of non-whitespace characters (the effect of
`split(/\s+/)` once empty pieces are dropped by `filter(Boolean)`). -/
def splitWsAcc : List Char → List Char → List (List Char)
  | [], acc => if acc.isEmpty then [] else [acc.reverse]
  | c :: cs, acc =>
      if c.isWhitespace then
        (if acc.isEmpty then splitWsAcc cs [] else acc.reverse :: splitWsAcc cs [])
      else splitWsAcc cs (c :: acc)

/-- Whitespace-delimited words of a character list. -/
def wordsWs (l : List Char) : List (List Char) := splitWsAcc l []

/-- Embedding of the `parts` computed inside `fuzzyScore`:
`name.toLowerCase().split(/\s+/).map(normalizeText).filter(Boolean)`. -/
def tokensOf (name : List Char) : List (List Char) :=
  ((wordsWs (name.map Char.toLower)).map normalizeText).filter (fun t => !t.isEmpty)

/-- Embedding of `fuzzyScore(name, query)` from the source: `null` on an
empty normalized query; `0` on a substring hit; otherwise the running
minimum (`best`) of the whole-name distance and each token distance. -/
def fuzzyScore (name q : List Char) : Option Nat :=
  let normalizedName := normalizeText name
  let normalizedQuery := normalizeText q
  if normalizedQuery.isEmpty then none
  else if hasSubstr normalizedQuery normalizedName then some 0
  else
    some ((tokensOf name).foldl
      (fun best part => min best (levenshteinDist part normalizedQuery))
      (levenshteinDist normalizedName normalizedQuery))

lemma foldl_min_le_init (l : List Nat) (init : Nat) :
    l.foldl min init ≤ init := by
  induction l generalizing init with
  | nil => simp
  | cons a t ih =>
      simp only [List.foldl_cons]
      exact le_trans (ih (min init a)) (min_le_left _ _)

lemma foldl_min_le_mem (l : List Nat) (init : Nat) :
    ∀ d ∈ l, l.foldl min init ≤ d := by
  induction l generalizing init with
  | nil => intro d hd; simp at hd
  | cons a t ih =>
      intro d hd
      rcases List.mem_cons.mp hd with h | h
      · subst h
        exact le_trans (foldl_min_le_init t (min init d)) (min_le_right _ _)
      · exact ih (min init a) d h

lemma foldl_min_mem (l : List Nat) (init : Nat) :
    l.foldl min init = init ∨ l.foldl min init ∈ l := by
  induction l generalizing init with
  | nil => left; rfl
  | cons a t ih =>
      simp only [List.foldl_cons]
      rcases ih (min init a) with h | h
      · rcases Nat.le_total init a with hle | hle
        · left; rw [h, min_eq_left hle]
        · right; rw [h, min_eq_right hle]; exact List.mem_cons_self a t
      · right; exact List.mem_cons_of_mem a h

/-- Claim C4: `fuzzyScore` returns `none` when the normalized query is empty,
`some 0` when the normalized candidate contains the normalized query as a
substring, and otherwise the minimum of the whole-candidate Levenshtein
distance and the distances to each whitespace-delimited (normalized) token of
the candidate name. -/
theorem fuzzyScore_spec (name q : List Char) :
    (normalizeText q = [] → fuzzyScore name q = none)
    ∧ (normalizeText q ≠ [] →
        hasSubstr (normalizeText q) (normalizeText name) = true →
        fuzzyScore name q = some 0)
    ∧ (normalizeText q ≠ [] →
        hasSubstr (normalizeText q) (normalizeText name) = false →
        ∃ m, fuzzyScore name q = some m
          ∧ m ∈ levenshteinDist (normalizeText name) (normalizeText q) ::
              (tokensOf name).map (fun t => levenshteinDist t (normalizeText q))
          ∧ ∀ d ∈ levenshteinDist (normalizeText name) (normalizeText q) ::
              (tokensOf name).map (fun t => levenshteinDist t (normalizeText q)),
              m ≤ d) := by
  refine ⟨?_, ?_, ?_⟩
  · intro h
    simp [fuzzyScore, List.isEmpty_iff, h]
  · intro hne hsub
    simp [fuzzyScore, List.isEmpty_iff, hne, hsub]
  · intro hne hsub
    refine ⟨(tokensOf name).foldl
      (fun best part => min best (levenshteinDist part (normalizeText q)))
      (levenshteinDist (normalizeText name) (normalizeText q)), ?_, ?_, ?_⟩
    · simp [fuzzyScore, List.isEmpty_iff, hne, hsub]
    · have hfold :
        (tokensOf name).foldl
            (fun best part => min best (levenshteinDist part (normalizeText q)))
            (levenshteinDist (normalizeText name) (normalizeText q)) =
          ((tokensOf name).map (fun t => levenshteinDist t (normalizeText q))).foldl
            min (levenshteinDist (normalizeText name) (normalizeText q)) := by
        rw [List.foldl_map]
      rw [hfold]
      rcases foldl_min_mem
          ((tokensOf name).map (fun t => levenshteinDist t (normalizeText q)))
          (levenshteinDist (normalizeText name) (normalizeText q)) with h | h
      · rw [h]; exact List.mem_cons_self _ _
      · exact List.mem_cons_of_mem _ h
    · intro d hd
      have hfold :
        (tokensOf name).foldl
            (fun best part => min best (levenshteinDist part (normalizeText q)))
            (levenshteinDist (normalizeText name) (normalizeText q)) =
          ((tokensOf name).map (fun t => levenshteinDist t (normalizeText q))).foldl
            min (levenshteinDist (normalizeText name) (normalizeText q)) := by
        rw [List.foldl_map]
      rw [hfold]
      rcases List.mem_cons.mp hd with h | h
      · subst h; exact foldl_min_le_init _ _
      · exact foldl_min_le_mem _ _ d h

/-- Witness for C4: the non-substring branch at a concrete name and query. -/
theorem fuzzyScore_spec_witness :
    (normalizeText ("ce".toList) ≠ []
      ∧ hasSubstr (normalizeText ("ce".toList)) (normalizeText ("ab cd".toList)) = false)
    ∧ (∃ m, fuzzyScore ("ab cd".toList) ("ce".toList) = some m
        ∧ m ∈ levenshteinDist (normalizeText ("ab cd".toList)) (normalizeText ("ce".toList)) ::
            (tokensOf ("ab cd".toList)).map
              (fun t => levenshteinDist t (normalizeText ("ce".toList)))
        ∧ ∀ d ∈ levenshteinDist (normalizeText ("ab cd".toList)) (normalizeText ("ce".toList)) ::
            (tokensOf ("ab cd".toList)).map
              (fun t => levenshteinDist t (normalizeText ("ce".toList))),
            m ≤ d) :=
  ⟨⟨by decide, by decide⟩,
    (fuzzyScore_spec ("ab cd".toList) ("ce".toList)).2.2 (by decide) (by decide)⟩

/-! ## Stable sorting

JavaScript `Array.prototype.sort` with a comparator is stable (ES2019).  We
model it as stable insertion sort parametrised by a boolean relation
`le a b` meaning "the comparator does not require `b` before `a`": an
element is inserted after every earlier element it does not strictly
precede, which reproduces the stable order of the source. -/

/-- Insert `x` into `l` before the first element `y` with `le x y`. -/
def insertBy {α : Type} (le : α → α → Bool) (x : α) : List α → List α
  | [] => [x]
  | y :: ys => if le x y then x :: y :: ys else y :: insertBy le x ys

/-- Stable insertion sort with respect to a boolean relation. -/
def sortByBool {α : Type} (le : α → α → Bool) : List α → List α
  | [] => []
  | x :: xs => insertBy le x (sortByBool le xs)

lemma insertBy_perm {α : Type} (le : α → α → Bool) (x : α) (l : List α) :
    List.Perm (insertBy le x l) (x :: l) := by
  induction l with
  | nil => exact List.Perm.refl _
  | cons y ys ih =>
      by_cases h : le x y = true
      · simp [insertBy, h]
      · simp only [insertBy]
        rw [if_neg h]
        exact (List.Perm.cons y ih).trans (List.Perm.swap x y ys)

lemma sortByBool_perm {α : Type} (le : α → α → Bool) (l : List α) :
    List.Perm (sortByBool le l) l := by
  induction l with
  | nil => simp [sortByBool]
  | cons x xs ih =>
      exact (insertBy_perm le x (sortByBool le xs)).trans (List.Perm.cons x ih)

lemma insertBy_length {α : Type} (le : α → α → Bool) (x : α) (l : List α) :
    (insertBy le x l).length = l.length + 1 :=
  (insertBy_perm le x l).length_eq

lemma sortByBool_length {α : Type} (le : α → α → Bool) (l : List α) :
    (sortByBool le l).length = l.length :=
  (sortByBool_perm le l).length_eq

lemma insertBy_sorted {α : Type} (le : α → α → Bool)
    (htot : ∀ a b, le a b = true ∨ le b a = true)
    (htrans : ∀ a b c, le a b = true → le b c = true → le a c = true)
    (x : α) (l : List α)
    (hl : l.Pairwise (fun a b => le a b = true)) :
    (insertBy le x l).Pairwise (fun a b => le a b = true) := by
  induction l with
  | nil => simp [insertBy]
  | cons y ys ih =>
      rcases List.pairwise_cons.mp hl with ⟨hy, hys⟩
      by_cases h : le x y = true
      · simp only [insertBy, h, if_true]
        refine List.pairwise_cons.mpr ⟨?_, hl⟩
        intro b hb
        rcases List.mem_cons.mp hb with hb | hb
        · subst hb; exact h
        · exact htrans x y b h (hy b hb)
      · simp only [insertBy]
        rw [if_neg h]
        refine List.pairwise_cons.mpr ⟨?_, ih hys⟩
        intro b hb
        have hb' := (insertBy_perm le x ys).mem_iff.mp hb
        rcases List.mem_cons.mp hb' with hb' | hb'
        · rcases htot x y with hxy | hyx
          · exact absurd hxy h
          · rw [hb']; exact hyx
        · exact hy b hb'

lemma sortByBool_sorted {α : Type} (le : α → α → Bool)
    (htot : ∀ a b, le a b = true ∨ le b a = true)
    (htrans : ∀ a b c, le a b = true → le b c = true → le a c = true)
    (l : List α) :
    (sortByBool le l).Pairwise (fun a b => le a b = true) := by
  induction l with
  | nil => simp [sortByBool]
  | cons x xs ih => exact insertBy_sorted le htot htrans x (sortByBool le xs) ih

lemma insertBy_filter_key {α : Type} {κ : Type} [DecidableEq κ]
    (le : α → α → Bool) (key : α → κ)
    (hk : ∀ a b, key a = key b → le a b = true)
    (x : α) (l : List α) (k : κ) :
    (insertBy le x l).filter (fun a => key a = k) =
      if key x = k then x :: l.filter (fun a => key a = k)
      else l.filter (fun a => key a = k) := by
  induction l with
  | nil =>
      by_cases hx : key x = k
      · simp [insertBy, List.filter_cons, hx]
      · simp [insertBy, List.filter_cons, hx]
  | cons y ys ih =>
      by_cases h : le x y = true
      · by_cases hx : key x = k <;> simp [insertBy, h, List.filter_cons, hx]
      · have hxy : key x ≠ key y := by
          intro he
          exact h (hk x y he)
        simp only [insertBy]
        rw [if_neg h]
        by_cases hx : key x = k
        · have hy : ¬ key y = k := fun he => hxy (hx.trans he.symm)
          simp [List.filter_cons, hx, hy, ih]
        · by_cases hy : key y = k <;> simp [List.filter_cons, hx, hy, ih]

lemma sortByBool_filter_key {α : Type} {κ : Type} [DecidableEq κ]
    (le : α → α → Bool) (key : α → κ)
    (hk : ∀ a b, key a = key b → le a b = true)
    (l : List α) (k : κ) :
    (sortByBool le l).filter (fun a => key a = k) =
      l.filter (fun a => key a = k) := by
  induction l with
  | nil => simp [sortByBool]
  | cons x xs ih =>
      simp only [sortByBool]
      rw [insertBy_filter_key le key hk, List.filter_cons]
      by_cases hx : key x = k <;> simp [hx, ih]

/-! ## Data model for player rows and stat definitions -/

/-- A JavaScript `qual` value: the leaderboard rejects rows with
`qual === false || qual === 0`; any other value (true, non-zero number,
absent) passes. -/
inductive QualVal
  | b (x : Bool)
  | n (q : Rat)
deriving DecidableEq, Repr

/-- Player population mode. -/
inductive Mode
  | hitters
  | pitchers
deriving DecidableEq, Repr

/-- Pitcher role, the values of `PITCHER_ROLE_STARTERS` / `PITCHER_ROLE_RELIEVERS`. -/
inductive PRole
  | starters
  | relievers
deriving DecidableEq, Repr

/-- A dataset row.  Numeric fields that may be null, undefined or NaN in the
source are `Option Rat` (`none` covers all three, matching the
`typeof x === "number" && !Number.isNaN(x)` guards).  Stat values live in an
association list; an entry `(k, none)` is an explicit JSON null and a missing
key is undefined — the leaderboard treats both as missing. -/
structure PlayerRow where
  player_id : Int
  name : List Char
  team : Option (List Char)
  season : Int
  qual : Option QualVal
  g : Option Rat
  gs : Option Rat
  ip : Option Rat
  pa : Option Rat
  stats : List (String × Option Rat)
deriving DecidableEq, Repr

/-- `player[statKey]` collapsed to `Option Rat` (null = undefined = NaN = none). -/
def statOf (p : PlayerRow) (key : String) : Option Rat :=
  match p.stats.lookup key with
  | some v => v
  | none => none

/-- A stat definition from the per-mode catalog (the fields the claims use). -/
structure StatConfig where
  key : String
  label : List Char
  description : List Char
  lower_is_better : Bool
  range_supported : Bool
deriving DecidableEq, Repr

/-- JavaScript `String.prototype.trim`. -/
def jsTrim (l : List Char) : List Char :=
  ((l.dropWhile Char.isWhitespace).reverse.dropWhile Char.isWhitespace).reverse

/-! ## LeaderboardEngine -/

/-- Embedding of `getPitcherRole`.  The source guards each branch with
`if (g && ...)`: `g` must be a known number AND truthy (non-zero), while
`gs`/`ip` only need `!== null`. -/
def getPitcherRole (p : PlayerRow) : Option PRole :=
  match p.g with
  | none => none
  | some g =>
      if g = 0 then none
      else
        match p.gs with
        | some gs =>
            some (if (1 : Rat)/2 ≤ gs / g then PRole.starters else PRole.relievers)
        | none =>
            match p.ip with
            | some ip =>
                some (if (3 : Rat) ≤ ip / g then PRole.starters else PRole.relievers)
            | none => none

/-- Embedding of `matchesPitcherRole` (strict equality against the role). -/
def matchesPitcherRole (p : PlayerRow) (role : PRole) : Bool :=
  decide (getPitcherRole p = some role)

/-- `dataset.some(p => typeof p.g === "number" && !Number.isNaN(p.g))`. -/
def hasNumG (ds : List PlayerRow) : Bool := ds.any (fun p => p.g.isSome)

/-- Same presence scan for `pa`. -/
def hasNumPa (ds : List PlayerRow) : Bool := ds.any (fun p => p.pa.isSome)

/-- Same presence scan for `ip`. -/
def hasNumIp (ds : List PlayerRow) : Bool := ds.any (fun p => p.ip.isSome)

/-- The `basePlayers` filter of `renderLeaderboard`: reject a missing stat
value, a missing/blank team, and `qual === false || qual === 0`. -/
def baseKeep (statKey : String) (p : PlayerRow) : Bool :=
  (statOf p statKey).isSome
    && (match p.team with
        | none => false
        | some t => !(jsTrim t).isEmpty)
    && !(decide (p.qual = some (QualVal.b false))
          || decide (p.qual = some (QualVal.n 0)))

/-- The `qualifiedPlayers` filter: per-mode minimum-sample thresholds, each
enforced only when the corresponding field occurs somewhere in the dataset. -/
def qualKeep (mode : Mode) (hasPa hasG hasIp : Bool) (p : PlayerRow) : Bool :=
  match mode with
  | Mode.hitters =>
      (if hasPa then
          match p.pa with
          | some v => decide ((150 : Rat) ≤ v)
          | none => false
        else true)
      && (if hasG then
          match p.g with
          | some v => decide ((20 : Rat) ≤ v)
          | none => false
        else true)
  | Mode.pitchers =>
      (if hasIp then
          match p.ip with
          | some v => decide ((50 : Rat) ≤ v)
          | none => false
        else true)
      && (if hasG then
          match p.g with
          | some v => decide ((10 : Rat) ≤ v)
          | none => false
        else true)

/-- `basePlayers` as a function of the dataset. -/
def baseOf (statKey : String) (ds : List PlayerRow) : List PlayerRow :=
  ds.filter (baseKeep statKey)

/-- `rolePlayers`: role filtering happens only in pitchers mode. -/
def roleOf (mode : Mode) (statKey : String) (role : PRole) (ds : List PlayerRow) :
    List PlayerRow :=
  if mode = Mode.pitchers then
    (baseOf statKey ds).filter (fun p => matchesPitcherRole p role)
  else baseOf statKey ds

/-- `qualifiedPlayers`. -/
def qualifiedOf (mode : Mode) (statKey : String) (role : PRole) (ds : List PlayerRow) :
    List PlayerRow :=
  (roleOf mode statKey role ds).filter
    (qualKeep mode (hasNumPa ds) (hasNumG ds) (hasNumIp ds))

/-- `validPlayers`: the qualified set, unless fewer than 25 qualify, in which
case the pre-qualification role-filtered set. -/
def validOf (mode : Mode) (statKey : String) (role : PRole) (ds : List PlayerRow) :
    List PlayerRow :=
  if 25 ≤ (qualifiedOf mode statKey role ds).length then
    qualifiedOf mode statKey role ds
  else roleOf mode statKey role ds

/-- The stat value used by the sort comparator (every row reaching the sort
has a value, so the default is never observed there). -/
def statValOr0 (statKey : String) (p : PlayerRow) : Rat :=
  (statOf p statKey).getD 0

/-- The sort comparator: `valA - valB` when `lower_is_better`, else
`valB - valA`; as a before-or-equal relation for the stable sort. -/
def lbLe (statKey : String) (lowerIsBetter : Bool) (a b : PlayerRow) : Bool :=
  if lowerIsBetter then decide (statValOr0 statKey a ≤ statValOr0 statKey b)
  else decide (statValOr0 statKey b ≤ statValOr0 statKey a)

/-- Attach 1-based ranks (`index + 1`). -/
def rankRows (l : List PlayerRow) : List (Nat × PlayerRow) :=
  l.enum.map (fun pr => (pr.1 + 1, pr.2))

/-- Sort, take the top 25, attach ranks (steps 5 and 6 of `renderLeaderboard`). -/
def sortAndRank (cfg : StatConfig) (rows : List PlayerRow) : List (Nat × PlayerRow) :=
  rankRows ((sortByBool (lbLe cfg.key cfg.lower_is_better) rows).take 25)

/-- The full ranking pipeline of `renderLeaderboard` for a resolved stat
config (base filter, role filter, qualification with fallback, sort, top 25,
ranks). -/
def renderLeaderboard (mode : Mode) (cfg : StatConfig) (role : PRole)
    (ds : List PlayerRow) : List (Nat × PlayerRow) :=
  sortAndRank cfg (validOf mode cfg.key role ds)

lemma rankRows_map_fst_aux {α : Type} (l : List α) :
    ∀ n, (List.enumFrom n l).map (fun pr => pr.1 + 1) = List.range' (n + 1) l.length := by
  induction l with
  | nil => intro n; simp
  | cons a t ih =>
      intro n
      simp [List.enumFrom, List.range', ih (n + 1)]

lemma rankRows_map_fst (l : List PlayerRow) :
    (rankRows l).map Prod.fst = List.range' 1 l.length := by
  have h := rankRows_map_fst_aux (α := PlayerRow) l 0
  simpa [rankRows, List.enum, List.map_map, Function.comp] using h

lemma rankRows_map_snd (l : List PlayerRow) :
    (rankRows l).map Prod.snd = l := by
  rw [rankRows, List.map_map]
  exact List.enum_map_snd l

lemma rankRows_length (l : List PlayerRow) :
    (rankRows l).length = l.length := by
  simp [rankRows]

lemma rankRows_mem_snd (l : List PlayerRow) :
    ∀ pr ∈ rankRows l, pr.2 ∈ l := by
  intro pr hpr
  have h := List.mem_map_of_mem Prod.snd hpr
  rw [rankRows_map_snd] at h
  exact h

lemma sortAndRank_length (cfg : StatConfig) (rows : List PlayerRow) :
    (sortAndRank cfg rows).length = min 25 rows.length := by
  rw [sortAndRank, rankRows_length, List.length_take,
    sortByBool_length (lbLe cfg.key cfg.lower_is_better) rows]

lemma lbLe_total (statKey : String) (lower : Bool) :
    ∀ a b, lbLe statKey lower a b = true ∨ lbLe statKey lower b a = true := by
  intro a b
  cases lower <;> simp [lbLe] <;> exact le_total _ _

lemma lbLe_trans (statKey : String) (lower : Bool) :
    ∀ a b c, lbLe statKey lower a b = true → lbLe statKey lower b c = true →
      lbLe statKey lower a c = true := by
  intro a b c hab hbc
  cases lower <;> simp [lbLe] at hab hbc ⊢
  · exact le_trans hbc hab
  · exact le_trans hab hbc

lemma lbLe_of_key_eq (statKey : String) (lower : Bool) :
    ∀ a b, statValOr0 statKey a = statValOr0 statKey b →
      lbLe statKey lower a b = true := by
  intro a b h
  cases lower <;> simp [lbLe, h]

/-- A pitcher row with `g = 0` but a known `gs`: the claim says the gs-ratio
rule applies whenever both are known numbers, but the source requires `g`
truthy. -/
def pitcherRowZeroG : PlayerRow :=
  { player_id := 7, name := [], team := some ("TOR".toList), season := 2024,
    qual := none, g := some 0, gs := some 3, ip := some 12, pa := none,
    stats := [] }

/-- Counterexample to C2 as stated: `g = 0` and `gs = 3` are both known
numeric values, yet `getPitcherRole` returns no role at all (the source
treats a zero `g` as falsy and skips both classification branches), instead
of the starter/reliever the claim requires. -/
theorem getPitcherRole_zero_g_counterexample :
    pitcherRowZeroG.g = some 0 ∧ pitcherRowZeroG.gs = some 3
    ∧ getPitcherRole pitcherRowZeroG = none
    ∧ getPitcherRole pitcherRowZeroG ≠ some PRole.starters
    ∧ getPitcherRole pitcherRowZeroG ≠ some PRole.relievers := by
  decide

/-- Claim C2 (amended): role classification uses the `gs/g` rule when `g` is a
known nonzero number and `gs` is known, else the `ip/g` rule when `g` is known
and nonzero and `ip` is known, and otherwise (including `g = 0`) leaves the
role undetermined, which excludes the row from every role-filtered board. -/
theorem getPitcherRole_spec (p : PlayerRow) :
    (∀ g gs, p.g = some g → g ≠ 0 → p.gs = some gs →
        getPitcherRole p =
          some (if (1 : Rat)/2 ≤ gs / g then PRole.starters else PRole.relievers))
    ∧ (∀ g ip, p.g = some g → g ≠ 0 → p.gs = none → p.ip = some ip →
        getPitcherRole p =
          some (if (3 : Rat) ≤ ip / g then PRole.starters else PRole.relievers))
    ∧ ((p.g = none ∨ p.g = some 0 ∨ (p.gs = none ∧ p.ip = none)) →
        getPitcherRole p = none)
    ∧ (getPitcherRole p = none → ∀ r, matchesPitcherRole p r = false) := by
  refine ⟨?_, ?_, ?_, ?_⟩
  · intro g gs hg hgne hgs
    simp [getPitcherRole, hg, hgs, hgne]
  · intro g ip hg hgne hgs hip
    simp [getPitcherRole, hg, hgs, hip, hgne]
  · rintro (h | h | ⟨h1, h2⟩)
    · simp [getPitcherRole, h]
    · simp [getPitcherRole, h]
    · cases hg : p.g with
      | none => simp [getPitcherRole, hg]
      | some g => by_cases hz : g = 0 <;> simp [getPitcherRole, hg, h1, h2, hz]
  · intro h r
    simp [matchesPitcherRole, h]

/-- A starter by games-started ratio (`g = 30, gs = 30`). -/
def starterRow30 : PlayerRow :=
  { player_id := 8, name := [], team := some ("LAD".toList), season := 2024,
    qual := none, g := some 30, gs := some 30, ip := none, pa := none,
    stats := [] }

/-- A reliever by games-started ratio (`g = 60, gs = 0`). -/
def relieverRow60 : PlayerRow :=
  { player_id := 9, name := [], team := some ("LAD".toList), season := 2024,
    qual := none, g := some 60, gs := some 0, ip := none, pa := none,
    stats := [] }

/-- Witness for C2 (amended): the claim's two worked examples. -/
theorem getPitcherRole_spec_witness :
    getPitcherRole starterRow30 = some PRole.starters
    ∧ getPitcherRole relieverRow60 = some PRole.relievers := by
  constructor
  · have h := (getPitcherRole_spec starterRow30).1 30 30 rfl (by norm_num) rfl
    rw [h]
    norm_num
  · have h := (getPitcherRole_spec relieverRow60).1 60 0 rfl (by norm_num) rfl
    rw [h]
    norm_num

lemma qualKeep_iff (mode : Mode) (hasPa hasG hasIp : Bool) (p : PlayerRow) :
    qualKeep mode hasPa hasG hasIp p = true ↔
      ((mode = Mode.hitters →
          (hasPa = true → ∃ v, p.pa = some v ∧ (150 : Rat) ≤ v)
          ∧ (hasG = true → ∃ v, p.g = some v ∧ (20 : Rat) ≤ v))
       ∧ (mode = Mode.pitchers →
          (hasIp = true → ∃ v, p.ip = some v ∧ (50 : Rat) ≤ v)
          ∧ (hasG = true → ∃ v, p.g = some v ∧ (10 : Rat) ≤ v))) := by
  cases mode <;> cases hasPa <;> cases hasG <;> cases hasIp <;>
    cases hpa : p.pa <;> cases hg : p.g <;> cases hip : p.ip <;>
      simp [qualKeep, hpa, hg, hip]

/-- Claim C1: with a known stat key, when fewer than 25 role-filtered rows are
qualified the board is built from the whole pre-qualification role-filtered
set, so it contains min(25, role-filtered count) rows, each drawn from that
set, and no error is raised (the pipeline is total); qualification itself is
the per-mode threshold scheme with dataset-presence gating. -/
theorem leaderboard_qualification_fallback (mode : Mode) (cfg : StatConfig)
    (role : PRole) (ds : List PlayerRow)
    (hq : (qualifiedOf mode cfg.key role ds).length < 25) :
    renderLeaderboard mode cfg role ds = sortAndRank cfg (roleOf mode cfg.key role ds)
    ∧ (renderLeaderboard mode cfg role ds).length =
        min 25 (roleOf mode cfg.key role ds).length
    ∧ (∀ pr ∈ renderLeaderboard mode cfg role ds, pr.2 ∈ roleOf mode cfg.key role ds)
    ∧ (∀ p, qualKeep mode (hasNumPa ds) (hasNumG ds) (hasNumIp ds) p = true ↔
        ((mode = Mode.hitters →
            (hasNumPa ds = true → ∃ v, p.pa = some v ∧ (150 : Rat) ≤ v)
            ∧ (hasNumG ds = true → ∃ v, p.g = some v ∧ (20 : Rat) ≤ v))
         ∧ (mode = Mode.pitchers →
            (hasNumIp ds = true → ∃ v, p.ip = some v ∧ (50 : Rat) ≤ v)
            ∧ (hasNumG ds = true → ∃ v, p.g = some v ∧ (10 : Rat) ≤ v)))) := by
  have hval : validOf mode cfg.key role ds = roleOf mode cfg.key role ds := by
    rw [validOf, if_neg (by omega)]
  refine ⟨by rw [renderLeaderboard, hval], ?_, ?_, ?_⟩
  · rw [renderLeaderboard, hval, sortAndRank_length]
  · intro pr hpr
    rw [renderLeaderboard, hval, sortAndRank] at hpr
    have h2 := rankRows_mem_snd _ pr hpr
    have h3 := List.take_subset 25 _ h2
    exact (sortByBool_perm _ _).subset h3
  · intro p
    exact qualKeep_iff mode (hasNumPa ds) (hasNumG ds) (hasNumIp ds) p

/-- A hitter row that passes both hitter thresholds. -/
def hitterQRow : PlayerRow :=
  { player_id := 1, name := [], team := some ("NYY".toList), season := 2024,
    qual := none, g := some 100, gs := none, ip := none, pa := some 600,
    stats := [("hr", some 40)] }

/-- A hitter row that fails the `pa` threshold. -/
def hitterURow : PlayerRow :=
  { player_id := 2, name := [], team := some ("BOS".toList), season := 2024,
    qual := none, g := some 30, gs := none, ip := none, pa := some 10,
    stats := [("hr", some 2)] }

/-- The stat config for the C1 witness board. -/
def hrCfg : StatConfig :=
  { key := "hr", label := [], description := [], lower_is_better := false,
    range_supported := true }

/-- Witness for C1: a two-row hitters dataset with only one qualified row
still yields a board of min(25, 2) = 2 rows. -/
theorem leaderboard_qualification_fallback_witness :
    (qualifiedOf Mode.hitters hrCfg.key PRole.starters [hitterQRow, hitterURow]).length < 25
    ∧ (renderLeaderboard Mode.hitters hrCfg PRole.starters [hitterQRow, hitterURow]).length
        = min 25 (roleOf Mode.hitters hrCfg.key PRole.starters [hitterQRow, hitterURow]).length :=
  ⟨by decide,
    (leaderboard_qualification_fallback Mode.hitters hrCfg PRole.starters
      [hitterQRow, hitterURow] (by decide)).2.1⟩

/-- ERA-like stat config for the C3 example (`lower_is_better = true`). -/
def eraCfg : StatConfig :=
  { key := "era", label := [], description := [], lower_is_better := true,
    range_supported := true }

/-- C3 example row with value 4.50. -/
def eraRowA : PlayerRow :=
  { player_id := 11, name := [], team := some ("SEA".toList), season := 2024,
    qual := none, g := none, gs := none, ip := none, pa := none,
    stats := [("era", some ((9 : Rat)/2))] }

/-- C3 example row with value 2.10. -/
def eraRowB : PlayerRow :=
  { player_id := 12, name := [], team := some ("SEA".toList), season := 2024,
    qual := none, g := none, gs := none, ip := none, pa := none,
    stats := [("era", some ((21 : Rat)/10))] }

/-- C3 example row with value 3.30. -/
def eraRowC : PlayerRow :=
  { player_id := 13, name := [], team := some ("SEA".toList), season := 2024,
    qual := none, g := none, gs := none, ip := none, pa := none,
    stats := [("era", some ((33 : Rat)/10))] }

/-- Claim C3: the board sorts descending by stat value (ascending when
`lower_is_better`), the sort is stable (rows with equal values keep their
encounter order), and the result is the first 25 rows with 1-based ranks; on
the example values [4.50, 2.10, 3.30] with `lower_is_better` the rank-1 value
is 2.10. -/
theorem leaderboard_sort_spec (cfg : StatConfig) (rows : List PlayerRow) :
    List.Perm (sortByBool (lbLe cfg.key cfg.lower_is_better) rows) rows
    ∧ (sortByBool (lbLe cfg.key cfg.lower_is_better) rows).Pairwise
        (fun a b =>
          if cfg.lower_is_better then statValOr0 cfg.key a ≤ statValOr0 cfg.key b
          else statValOr0 cfg.key b ≤ statValOr0 cfg.key a)
    ∧ (∀ v : Rat,
        (sortByBool (lbLe cfg.key cfg.lower_is_better) rows).filter
            (fun p => statValOr0 cfg.key p = v) =
          rows.filter (fun p => statValOr0 cfg.key p = v))
    ∧ (sortAndRank cfg rows).length = min 25 rows.length
    ∧ (sortAndRank cfg rows).map Prod.fst =
        List.range' 1 (min 25 rows.length)
    ∧ (sortAndRank cfg rows).map Prod.snd =
        (sortByBool (lbLe cfg.key cfg.lower_is_better) rows).take 25
    ∧ (sortAndRank eraCfg [eraRowA, eraRowB, eraRowC]).map
        (fun pr => (pr.1, statOf pr.2 "era")) =
        [(1, some ((21 : Rat)/10)), (2, some ((33 : Rat)/10)), (3, some ((9 : Rat)/2))] := by
  refine ⟨sortByBool_perm _ rows, ?_, ?_, sortAndRank_length cfg rows, ?_, ?_, ?_⟩
  · have hs := sortByBool_sorted (lbLe cfg.key cfg.lower_is_better)
      (lbLe_total cfg.key cfg.lower_is_better)
      (lbLe_trans cfg.key cfg.lower_is_better) rows
    refine hs.imp ?_
    intro a b h
    cases hl : cfg.lower_is_better <;> rw [hl] at h <;>
      simp only [lbLe, if_true, if_false] at h <;> simp_all [lbLe]
  · intro v
    exact sortByBool_filter_key (lbLe cfg.key cfg.lower_is_better)
      (statValOr0 cfg.key) (lbLe_of_key_eq cfg.key cfg.lower_is_better) rows v
  · rw [sortAndRank, rankRows_map_fst, List.length_take,
      sortByBool_length (lbLe cfg.key cfg.lower_is_better) rows]
  · rw [sortAndRank, rankRows_map_snd]
  · norm_num [sortAndRank, sortByBool, insertBy, rankRows, lbLe, statValOr0,
      statOf, eraCfg, eraRowA, eraRowB, eraRowC, List.lookup, List.enum,
      List.enumFrom]

/-! ## Search (runSearch / searchStats)

The source sorts matches with `a.score - b.score || a.name.localeCompare(b.name)`.
`localeCompare` under the default locale is modelled as case-insensitive
lexicographic comparison of the names (primary strength), which is also how
the specification describes the tie-break. -/

/-- Lexicographic less-or-equal on character lists. -/
def lexLe : List Char → List Char → Bool
  | [], _ => true
  | _ :: _, [] => false
  | a :: as, b :: bs => if a = b then lexLe as bs else decide (a < b)

lemma lexLe_refl (l : List Char) : lexLe l l = true := by
  induction l with
  | nil => rfl
  | cons a t ih => simp [lexLe, ih]

lemma lexLe_total (a b : List Char) : lexLe a b = true ∨ lexLe b a = true := by
  induction a generalizing b with
  | nil => left; rfl
  | cons x xs ih =>
      cases b with
      | nil => right; rfl
      | cons y ys =>
          by_cases hxy : x = y
          · subst hxy
            simpa [lexLe] using ih ys
          · rcases lt_or_gt_of_ne hxy with h | h
            · left; simp [lexLe, hxy, h]
            · right; simp [lexLe, Ne.symm hxy, h]

lemma lexLe_trans (a b c : List Char) (hab : lexLe a b = true)
    (hbc : lexLe b c = true) : lexLe a c = true := by
  induction a generalizing b c with
  | nil => rfl
  | cons x xs ih =>
      cases b with
      | nil => simp [lexLe] at hab
      | cons y ys =>
          cases c with
          | nil => simp [lexLe] at hbc
          | cons z zs =>
              by_cases hxy : x = y
              · subst hxy
                simp only [lexLe, if_pos rfl] at hab
                by_cases hyz : x = z
                · subst hyz
                  simp only [lexLe, if_pos rfl] at hbc ⊢
                  exact ih ys zs hab hbc
                · simp only [lexLe, if_neg hyz] at hbc ⊢
                  exact hbc
              · simp only [lexLe, if_neg hxy] at hab
                have hx : x < y := of_decide_eq_true hab
                by_cases hyz : y = z
                · subst hyz
                  simp [lexLe, hxy, hx]
                · simp only [lexLe, if_neg hyz] at hbc
                  have hy : y < z := of_decide_eq_true hbc
                  have hxz : x < z := lt_trans hx hy
                  simp [lexLe, ne_of_lt hxz, hxz]

/-- The match comparator of both searches: ascending score, then
case-insensitive lexical order of the display name. -/
def searchLe {α : Type} (nameOf : α → List Char) (a b : α × Nat) : Bool :=
  if a.2 = b.2 then
    lexLe ((nameOf a.1).map Char.toLower) ((nameOf b.1).map Char.toLower)
  else decide (a.2 < b.2)

lemma searchLe_total {α : Type} (nameOf : α → List Char) (a b : α × Nat) :
    searchLe nameOf a b = true ∨ searchLe nameOf b a = true := by
  by_cases h : a.2 = b.2
  · simp only [searchLe, h, if_pos rfl, if_pos h.symm]
    exact lexLe_total _ _
  · rcases lt_or_gt_of_ne h with hlt | hgt
    · left; simp [searchLe, h, hlt]
    · right; simp [searchLe, Ne.symm h, hgt]

lemma searchLe_trans {α : Type} (nameOf : α → List Char) (a b c : α × Nat)
    (hab : searchLe nameOf a b = true) (hbc : searchLe nameOf b c = true) :
    searchLe nameOf a c = true := by
  by_cases h1 : a.2 = b.2 <;> by_cases h2 : b.2 = c.2
  · have h3 : a.2 = c.2 := h1.trans h2
    simp only [searchLe, if_pos h1] at hab
    simp only [searchLe, if_pos h2] at hbc
    simp only [searchLe, if_pos h3]
    exact lexLe_trans _ _ _ hab hbc
  · simp only [searchLe, if_neg h2] at hbc
    have hb : b.2 < c.2 := of_decide_eq_true hbc
    have h3 : a.2 ≠ c.2 := by omega
    simp only [searchLe, if_neg h3]
    exact decide_eq_true (by omega)
  · simp only [searchLe, if_neg h1] at hab
    have ha : a.2 < b.2 := of_decide_eq_true hab
    have h3 : a.2 ≠ c.2 := by omega
    simp only [searchLe, if_neg h3]
    exact decide_eq_true (by omega)
  · simp only [searchLe, if_neg h1] at hab
    simp only [searchLe, if_neg h2] at hbc
    have ha : a.2 < b.2 := of_decide_eq_true hab
    have hb : b.2 < c.2 := of_decide_eq_true hbc
    have h3 : a.2 ≠ c.2 := by omega
    simp only [searchLe, if_neg h3]
    exact decide_eq_true (by omega)

/-- The per-entity score of both searches: `0` on a substring hit, the fuzzy
score only when the normalized query is longer than 2 characters, otherwise
no score at all. -/
def searchScoreOf (nq q name : List Char) : Option Nat :=
  if hasSubstr nq (normalizeText name) then some 0
  else if 2 < nq.length then fuzzyScore name q
  else none

/-- The adaptive distance cutoff: 2 for normalized length at most 3, else
`max 2 (len / 2)`. -/
def searchMaxDistance (nq : List Char) : Nat :=
  if nq.length ≤ 3 then 2 else max 2 (nq.length / 2)

/-- The `matches` pipeline shared verbatim by `runSearch` (over player names)
and `searchStats` (over stat labels): score each entity, keep scores within
the cutoff. -/
def searchMatchesBy {α : Type} (nameOf : α → List Char) (q : List Char)
    (l : List α) : List (α × Nat) :=
  l.filterMap (fun x =>
    (searchScoreOf (normalizeText q) q (nameOf x)).bind (fun s =>
      if s ≤ searchMaxDistance (normalizeText q) then some (x, s) else none))

/-- `runSearch`'s match list. -/
def runSearchMatches (q : List Char) (ds : List PlayerRow) : List (PlayerRow × Nat) :=
  searchMatchesBy (fun p => p.name) q ds

/-- `searchStats`'s match list. -/
def searchStatsMatches (q : List Char) (cfgs : List StatConfig) :
    List (StatConfig × Nat) :=
  searchMatchesBy (fun st => st.label) q cfgs

/-- Embedding of `runSearch`: trim, bail out on an empty (normalized) query,
score and filter, sort, take the first 50 (each kept entry carries its
score; the final projection to `{player_id, name, team}` preserves order and
length). -/
def runSearchScored (rawQ : List Char) (ds : List PlayerRow) :
    List (PlayerRow × Nat) :=
  let q := jsTrim rawQ
  if q.isEmpty then []
  else if (normalizeText q).isEmpty then []
  else
    (sortByBool (searchLe (fun p : PlayerRow => p.name))
      (runSearchMatches q ds)).take 50

/-- Embedding of `searchStats`: same pipeline over stat labels, bailing out
when the stats config is empty, truncating to 25. -/
def searchStatsScored (rawQ : List Char) (cfgs : List StatConfig) :
    List (StatConfig × Nat) :=
  let q := jsTrim rawQ
  if q.isEmpty then []
  else if (normalizeText q).isEmpty then []
  else if cfgs.isEmpty then []
  else
    (sortByBool (searchLe (fun st : StatConfig => st.label))
      (searchStatsMatches q cfgs)).take 25

lemma searchMatchesBy_mem {α : Type} (nameOf : α → List Char) (q : List Char)
    (l : List α) (a : α) (s : Nat) :
    (a, s) ∈ searchMatchesBy nameOf q l ↔
      (a ∈ l ∧ s ≤ searchMaxDistance (normalizeText q)
        ∧ ((hasSubstr (normalizeText q) (normalizeText (nameOf a)) = true ∧ s = 0)
           ∨ (hasSubstr (normalizeText q) (normalizeText (nameOf a)) = false
               ∧ 2 < (normalizeText q).length
               ∧ fuzzyScore (nameOf a) q = some s))) := by
  rw [searchMatchesBy, List.mem_filterMap]
  constructor
  · rintro ⟨x, hx, hgx⟩
    cases hsc : searchScoreOf (normalizeText q) q (nameOf x) with
    | none => rw [hsc, Option.none_bind] at hgx; cases hgx
    | some s0 =>
        rw [hsc, Option.some_bind] at hgx
        by_cases hle : s0 ≤ searchMaxDistance (normalizeText q)
        · rw [if_pos hle] at hgx
          have heq : (x, s0) = (a, s) := Option.some.inj hgx
          have hxa : x = a := congrArg Prod.fst heq
          have hs0 : s0 = s := congrArg Prod.snd heq
          subst hxa; subst hs0
          refine ⟨hx, hle, ?_⟩
          by_cases hsub : hasSubstr (normalizeText q) (normalizeText (nameOf x)) = true
          · rw [searchScoreOf, if_pos hsub] at hsc
            exact Or.inl ⟨hsub, (Option.some.inj hsc).symm⟩
          · rw [searchScoreOf, if_neg hsub] at hsc
            by_cases hlen : 2 < (normalizeText q).length
            · rw [if_pos hlen] at hsc
              exact Or.inr ⟨Bool.eq_false_iff.mpr hsub, hlen, hsc⟩
            · rw [if_neg hlen] at hsc
              cases hsc
        · rw [if_neg hle] at hgx
          cases hgx
  · rintro ⟨ha, hle, hcase⟩
    refine ⟨a, ha, ?_⟩
    rcases hcase with ⟨hsub, hs⟩ | ⟨hsub, hlen, hfz⟩
    · subst hs
      rw [searchScoreOf, if_pos hsub, Option.some_bind, if_pos hle]
    · rw [searchScoreOf, if_neg (by simp [hsub]), if_pos hlen, hfz,
        Option.some_bind, if_pos hle]

lemma searchScored_pairwise {α : Type} (nameOf : α → List Char)
    (ms : List (α × Nat)) (n : Nat) :
    ((sortByBool (searchLe nameOf) ms).take n).Pairwise
      (fun a b => a.2 < b.2 ∨ (a.2 = b.2
        ∧ lexLe ((nameOf a.1).map Char.toLower) ((nameOf b.1).map Char.toLower) = true)) := by
  have hs := sortByBool_sorted (searchLe nameOf) (searchLe_total nameOf)
    (searchLe_trans nameOf) ms
  have hsub := List.Pairwise.sublist
    (List.take_sublist n (sortByBool (searchLe nameOf) ms)) hs
  refine hsub.imp ?_
  intro a b h
  by_cases he : a.2 = b.2
  · right
    refine ⟨he, ?_⟩
    rw [searchLe, if_pos he] at h
    exact h
  · left
    rw [searchLe, if_neg he] at h
    exact of_decide_eq_true h

/-- Row whose name is within edit distance 1 of the query "ab" yet is not a
substring match. -/
def rowAd : PlayerRow :=
  { player_id := 21, name := "ad".toList, team := some ("NYY".toList),
    season := 2024, qual := none, g := none, gs := none, ip := none,
    pa := none, stats := [] }

/-- Counterexample to C5 as stated: for the two-character query "ab" the
candidate "ad" has a defined fuzzy score 1, within the adaptive threshold 2,
yet the search drops it — the source only invokes fuzzy scoring when the
normalized query is longer than 2 characters. -/
theorem search_short_query_counterexample :
    fuzzyScore ("ad".toList) ("ab".toList) = some 1
    ∧ 1 ≤ searchMaxDistance (normalizeText ("ab".toList))
    ∧ runSearchScored ("ab".toList) [rowAd] = [] := by
  have e1 : normalizeText ('a' :: 'b' :: []) = 'a' :: 'b' :: [] := rfl
  have e2 : normalizeText ('a' :: 'd' :: []) = 'a' :: 'd' :: [] := rfl
  have e3 : tokensOf ('a' :: 'd' :: []) = [('a' :: 'd' :: [])] := rfl
  have e4 : levenshteinDist ('a' :: 'd' :: []) ('a' :: 'b' :: []) = 1 := by
    simp [levenshteinDist]
  refine ⟨?_, ?_, rfl⟩
  · simp [fuzzyScore, e1, e2, e3, e4, hasSubstr, leadMatch]
  · rw [show searchMaxDistance (normalizeText ("ab".toList)) = 2 from rfl]
    omega

/-- Claim C5 (amended): empty or whitespace-only queries produce no results
without scoring; a kept entry is exactly an entity that is a substring hit
(score 0) or, only when the normalized query is longer than 2 characters, has
a fuzzy score within the adaptive threshold; results are the sorted match
list (ascending score, ties by case-insensitive lexical name order)
truncated to 50 (players) or 25 (stats). -/
theorem search_contract (rawQ : List Char) (ds : List PlayerRow)
    (cfgs : List StatConfig) :
    ((jsTrim rawQ).isEmpty = true ∨ (normalizeText (jsTrim rawQ)).isEmpty = true →
        runSearchScored rawQ ds = [] ∧ searchStatsScored rawQ cfgs = [])
    ∧ (∀ p s, (p, s) ∈ runSearchMatches (jsTrim rawQ) ds ↔
        (p ∈ ds ∧ s ≤ searchMaxDistance (normalizeText (jsTrim rawQ))
          ∧ ((hasSubstr (normalizeText (jsTrim rawQ)) (normalizeText p.name) = true
                ∧ s = 0)
             ∨ (hasSubstr (normalizeText (jsTrim rawQ)) (normalizeText p.name) = false
                ∧ 2 < (normalizeText (jsTrim rawQ)).length
                ∧ fuzzyScore p.name (jsTrim rawQ) = some s))))
    ∧ (∀ st s, (st, s) ∈ searchStatsMatches (jsTrim rawQ) cfgs ↔
        (st ∈ cfgs ∧ s ≤ searchMaxDistance (normalizeText (jsTrim rawQ))
          ∧ ((hasSubstr (normalizeText (jsTrim rawQ)) (normalizeText st.label) = true
                ∧ s = 0)
             ∨ (hasSubstr (normalizeText (jsTrim rawQ)) (normalizeText st.label) = false
                ∧ 2 < (normalizeText (jsTrim rawQ)).length
                ∧ fuzzyScore st.label (jsTrim rawQ) = some s))))
    ∧ ((jsTrim rawQ).isEmpty = false → (normalizeText (jsTrim rawQ)).isEmpty = false →
        runSearchScored rawQ ds =
          (sortByBool (searchLe (fun p : PlayerRow => p.name))
            (runSearchMatches (jsTrim rawQ) ds)).take 50
        ∧ (runSearchScored rawQ ds).length =
            min 50 (runSearchMatches (jsTrim rawQ) ds).length
        ∧ searchStatsScored rawQ cfgs =
            (if cfgs.isEmpty then []
             else (sortByBool (searchLe (fun st : StatConfig => st.label))
               (searchStatsMatches (jsTrim rawQ) cfgs)).take 25)
        ∧ (cfgs.isEmpty = false →
            (searchStatsScored rawQ cfgs).length =
              min 25 (searchStatsMatches (jsTrim rawQ) cfgs).length))
    ∧ (runSearchScored rawQ ds).Pairwise
        (fun a b => a.2 < b.2 ∨ (a.2 = b.2
          ∧ lexLe (a.1.name.map Char.toLower) (b.1.name.map Char.toLower) = true))
    ∧ (searchStatsScored rawQ cfgs).Pairwise
        (fun a b => a.2 < b.2 ∨ (a.2 = b.2
          ∧ lexLe (a.1.label.map Char.toLower) (b.1.label.map Char.toLower) = true)) := by
  refine ⟨?_, ?_, ?_, ?_, ?_, ?_⟩
  · rintro (h | h)
    · constructor <;> simp [runSearchScored, searchStatsScored, h]
    · by_cases h0 : (jsTrim rawQ).isEmpty <;>
        constructor <;> simp [runSearchScored, searchStatsScored, h, h0]
  · intro p s
    exact searchMatchesBy_mem (fun p => p.name) (jsTrim rawQ) ds p s
  · intro st s
    exact searchMatchesBy_mem (fun st => st.label) (jsTrim rawQ) cfgs st s
  · intro h1 h2
    refine ⟨?_, ?_, ?_, ?_⟩
    · simp [runSearchScored, h1, h2]
    · simp [runSearchScored, h1, h2, List.length_take, sortByBool_length,
        runSearchMatches]
    · simp [searchStatsScored, h1, h2]
    · intro hc
      simp [searchStatsScored, h1, h2, hc, List.length_take, sortByBool_length,
        searchStatsMatches]
  · by_cases h0 : (jsTrim rawQ).isEmpty
    · simp [runSearchScored, h0]
    · by_cases h1 : (normalizeText (jsTrim rawQ)).isEmpty
      · simp [runSearchScored, h0, h1]
      · have h := searchScored_pairwise (fun p : PlayerRow => p.name)
          (runSearchMatches (jsTrim rawQ) ds) 50
        simpa [runSearchScored, h0, h1] using h
  · by_cases h0 : (jsTrim rawQ).isEmpty
    · simp [searchStatsScored, h0]
    · by_cases h1 : (normalizeText (jsTrim rawQ)).isEmpty
      · simp [searchStatsScored, h0, h1]
      · by_cases h2 : cfgs.isEmpty
        · simp [searchStatsScored, h0, h1, h2]
        · have h := searchScored_pairwise (fun st : StatConfig => st.label)
            (searchStatsMatches (jsTrim rawQ) cfgs) 25
          simpa [searchStatsScored, h0, h1, h2] using h

/-- Short-named row for the C5 witness. -/
def rowAl : PlayerRow :=
  { player_id := 22, name := "Al".toList, team := some ("NYY".toList),
    season := 2024, qual := none, g := none, gs := none, ip := none,
    pa := none, stats := [] }

/-- Second short-named row for the C5 witness. -/
def rowBo : PlayerRow :=
  { player_id := 23, name := "Bo".toList, team := some ("NYY".toList),
    season := 2024, qual := none, g := none, gs := none, ip := none,
    pa := none, stats := [] }

/-- Witness for C5 (amended): a whitespace query yields no results, and a
non-empty query instantiates the sorted-truncated pipeline equation. -/
theorem search_contract_witness :
    (runSearchScored ("   ".toList) [rowAl] = []
      ∧ searchStatsScored ("   ".toList) [] = [])
    ∧ runSearchScored ("al".toList) [rowAl, rowBo] =
        (sortByBool (searchLe (fun p : PlayerRow => p.name))
          (runSearchMatches (jsTrim ("al".toList)) [rowAl, rowBo])).take 50 := by
  constructor
  · exact (search_contract ("   ".toList) [rowAl] []).1 (Or.inl (by decide))
  · exact ((search_contract ("al".toList) [rowAl, rowBo] []).2.2.2.1
      (by decide) (by decide)).1

/-! ## MergeEngine (mergeRangeRowsForKeys) -/

/-- A merge-engine row: the stable `player_id` plus an ordered association
list of fields.  An entry `(k, none)` is an explicit JSON null (which counts
as present for the `!== undefined` overlay check); a missing key is
undefined. -/
structure MRow where
  player_id : Int
  fields : List (String × Option Rat)
deriving DecidableEq, Repr, Inhabited

/-- `new Map(rows.map(row => [row.player_id, row])).get(pid)`: later rows
overwrite earlier ones, so the lookup finds the last row with the id. -/
def rowLookupM (rows : List MRow) (pid : Int) : Option MRow :=
  rows.reverse.find? (fun r => decide (r.player_id = pid))

/-- JavaScript object property assignment on an association list: replace in
place when the key exists, append otherwise. -/
def assocSet : List (String × Option Rat) → String → Option Rat →
    List (String × Option Rat)
  | [], k, v => [(k, v)]
  | (k0, v0) :: t, k, v =>
      if k0 = k then (k, v) :: t else (k0, v0) :: assocSet t k v

/-- `merged[key] = value` on an `MRow`. -/
def setField (r : MRow) (k : String) (v : Option Rat) : MRow :=
  { r with fields := assocSet r.fields k v }

/-- The overlay loop of `mergeRangeRowsForKeys`: start from `{...seasonRow}`
and copy each requested key from the range row when it is defined there. -/
def overlayKeys (season range : MRow) (keys : List String) : MRow :=
  keys.foldl (fun acc k =>
    match range.fields.lookup k with
    | some v => setField acc k v
    | none => acc) season

/-- Embedding of `mergeRangeRowsForKeys`. -/
def mergeRangeRowsForKeys (playerIds : List Int) (rangeRows seasonRows : List MRow)
    (statKeys : List String) : List MRow :=
  playerIds.filterMap (fun pid =>
    match rowLookupM seasonRows pid, rowLookupM rangeRows pid with
    | none, none => none
    | none, some r => some r
    | some s, none => some s
    | some s, some r => some (overlayKeys s r statKeys))

lemma assocSet_lookup (l : List (String × Option Rat)) (k : String)
    (v : Option Rat) (k' : String) :
    (assocSet l k v).lookup k' = if k' = k then some v else l.lookup k' := by
  induction l with
  | nil =>
      by_cases h : k' = k
      · simp [assocSet, List.lookup, h]
      · have hb : (k' == k) = false := beq_eq_false_iff_ne.mpr h
        simp [assocSet, List.lookup, hb, h]
  | cons hd t ih =>
      obtain ⟨k0, v0⟩ := hd
      by_cases h0 : k0 = k
      · subst h0
        by_cases h : k' = k0
        · simp [assocSet, List.lookup, h]
        · have hb : (k' == k0) = false := beq_eq_false_iff_ne.mpr h
          simp [assocSet, List.lookup, hb, h]
      · by_cases h : k' = k0
        · subst h
          have hne : ¬ k' = k := h0
          have hb : (k' == k') = true := beq_self_eq_true k'
          simp [assocSet, List.lookup, h0, hne, hb]
        · have hb : (k' == k0) = false := beq_eq_false_iff_ne.mpr h
          simp [assocSet, List.lookup, h0, hb, ih]

lemma overlayKeys_player_id (s r : MRow) (keys : List String) :
    (overlayKeys s r keys).player_id = s.player_id := by
  induction keys generalizing s with
  | nil => rfl
  | cons k0 rest ih =>
      rw [overlayKeys, List.foldl_cons]
      cases hr : r.fields.lookup k0 with
      | none => simpa [overlayKeys, hr] using ih s
      | some v => simpa [overlayKeys, hr, setField] using ih (setField s k0 v)

lemma overlayKeys_lookup (s r : MRow) (keys : List String) (k : String) :
    (overlayKeys s r keys).fields.lookup k =
      if k ∈ keys ∧ (r.fields.lookup k).isSome then r.fields.lookup k
      else s.fields.lookup k := by
  induction keys generalizing s with
  | nil => simp [overlayKeys]
  | cons k0 rest ih =>
      rw [overlayKeys, List.foldl_cons]
      cases hr : r.fields.lookup k0 with
      | none =>
          dsimp only
          have hrec :
              List.lookup k
                (List.foldl (fun acc k =>
                  match r.fields.lookup k with
                  | some v => setField acc k v
                  | none => acc) s rest).fields =
              if k ∈ rest ∧ (List.lookup k r.fields).isSome = true
              then List.lookup k r.fields
              else List.lookup k s.fields := ih s
          rw [hrec]
          by_cases hmem : k ∈ rest ∧ (List.lookup k r.fields).isSome = true
          · rw [if_pos hmem, if_pos ⟨List.mem_cons_of_mem k0 hmem.1, hmem.2⟩]
          · rw [if_neg hmem]
            have hno : ¬ (k ∈ k0 :: rest ∧ (List.lookup k r.fields).isSome = true) := by
              intro hcon
              rcases List.mem_cons.mp hcon.1 with h | h
              · subst h
                rw [hr] at hcon
                simp at hcon
              · exact hmem ⟨h, hcon.2⟩
            rw [if_neg hno]
      | some v =>
          dsimp only
          have hrec :
              List.lookup k
                (List.foldl (fun acc k =>
                  match r.fields.lookup k with
                  | some v => setField acc k v
                  | none => acc) (setField s k0 v) rest).fields =
              if k ∈ rest ∧ (List.lookup k r.fields).isSome = true
              then List.lookup k r.fields
              else List.lookup k (setField s k0 v).fields := ih (setField s k0 v)
          rw [hrec]
          by_cases hmem : k ∈ rest ∧ (List.lookup k r.fields).isSome = true
          · rw [if_pos hmem, if_pos ⟨List.mem_cons_of_mem k0 hmem.1, hmem.2⟩]
          · rw [if_neg hmem]
            rw [show (setField s k0 v).fields = assocSet s.fields k0 v from rfl]
            rw [assocSet_lookup]
            by_cases hk : k = k0
            · subst hk
              rw [if_pos rfl]
              have hyes : k ∈ k :: rest ∧ (List.lookup k r.fields).isSome = true := by
                refine ⟨List.mem_cons_self k rest, ?_⟩
                rw [hr]
                rfl
              rw [if_pos hyes, hr]
            · rw [if_neg hk]
              have hno : ¬ (k ∈ k0 :: rest ∧ (List.lookup k r.fields).isSome = true) := by
                intro hcon
                rcases List.mem_cons.mp hcon.1 with h | h
                · exact hk h
                · exact hmem ⟨h, hcon.2⟩
              rw [if_neg hno]

/-- The C6 example season row `{hr: 10}`. -/
def mrowSeasonEx : MRow := { player_id := 1, fields := [("hr", some 10)] }

/-- The C6 example range row `{hr: 10, barrelpct: 0.12}`. -/
def mrowRangeEx : MRow :=
  { player_id := 1, fields := [("hr", some 10), ("barrelpct", some ((12 : Rat)/100))] }

/-- Claim C6: `mergeRangeRowsForKeys` yields, per requested id in order, the
season row (or the range row when no season row exists) with exactly the
requested keys overlaid from the range row when the range row defines them,
preserving every season-only field and the season `player_id`, and drops ids
with neither row; on the worked example the merged row keeps `hr = 10` and
gains `barrelpct = 0.12`. -/
theorem mergeRangeRowsForKeys_spec (playerIds : List Int)
    (rangeRows seasonRows : List MRow) (statKeys : List String) :
    mergeRangeRowsForKeys playerIds rangeRows seasonRows statKeys =
      (playerIds.filter (fun pid =>
          (rowLookupM seasonRows pid).isSome || (rowLookupM rangeRows pid).isSome)).map
        (fun pid =>
          match rowLookupM seasonRows pid, rowLookupM rangeRows pid with
          | some s, some r => overlayKeys s r statKeys
          | some s, none => s
          | none, some r => r
          | none, none => default)
    ∧ (∀ s r k, (overlayKeys s r statKeys).fields.lookup k =
        (if k ∈ statKeys ∧ (r.fields.lookup k).isSome then r.fields.lookup k
         else s.fields.lookup k))
    ∧ (∀ s r, (overlayKeys s r statKeys).player_id = s.player_id)
    ∧ ((overlayKeys mrowSeasonEx mrowRangeEx ["barrelpct"]).fields.lookup "hr"
          = some (some 10)
        ∧ (overlayKeys mrowSeasonEx mrowRangeEx ["barrelpct"]).fields.lookup "barrelpct"
          = some (some ((12 : Rat)/100))
        ∧ mergeRangeRowsForKeys [1] [mrowRangeEx] [mrowSeasonEx] ["barrelpct"] =
            [overlayKeys mrowSeasonEx mrowRangeEx ["barrelpct"]]) := by
  refine ⟨?_, ?_, ?_, rfl, rfl, rfl⟩
  · induction playerIds with
    | nil => rfl
    | cons pid rest ih =>
        rw [mergeRangeRowsForKeys, List.filterMap_cons, List.filter_cons]
        rw [mergeRangeRowsForKeys] at ih
        cases hS : rowLookupM seasonRows pid <;> cases hR : rowLookupM rangeRows pid <;>
          simp [hS, hR, ih]
  · intro s r k
    exact overlayKeys_lookup s r statKeys k
  · intro s r
    exact overlayKeys_player_id s r statKeys

/-! ## SelectionState (per-mode saved players, compare set, active player) -/

/-- A saved player reference. -/
structure SavedPlayer where
  player_id : Int
  name : List Char
  team : Option (List Char)
deriving DecidableEq, Repr

/-- Per-mode selection state.  The JS `Set` objects (`activeCompareIds`,
`selectedStatKeys`) are modelled as insertion-ordered duplicate-free lists;
`Set.delete` is filtering. -/
structure ModeState where
  savedPlayers : List SavedPlayer
  activePlayerId : Option Int
  activeCompareIds : List Int
  selectedStatKeys : List String
deriving DecidableEq, Repr

/-- Embedding of `removePlayer`: bail out when the id is not saved, else
splice the entry out, clear `activePlayerId` when it was the removed id, and
delete the id from the compare set. -/
def removePlayer (st : ModeState) (playerId : Int) : ModeState :=
  if st.savedPlayers.any (fun item => decide (item.player_id = playerId)) then
    { savedPlayers := st.savedPlayers.eraseP (fun item => decide (item.player_id = playerId)),
      activePlayerId := if st.activePlayerId = some playerId then none
                        else st.activePlayerId,
      activeCompareIds := st.activeCompareIds.filter (fun id => decide (id ≠ playerId)),
      selectedStatKeys := st.selectedStatKeys }
  else st

/-- JavaScript truthiness of a nullable numeric id (`!state.activePlayerId`
is true for `null` and for the number 0). -/
def falsyId (x : Option Int) : Bool :=
  match x with
  | none => true
  | some v => decide (v = 0)

/-- Embedding of `addPlayerToMode`: no-op on a duplicate id or at capacity
(`MAX_SAVED_PLAYERS = 10`); otherwise push, and make the new player active
when no player is currently active (falsy id). -/
def addPlayerToMode (st : ModeState) (player : SavedPlayer) : ModeState :=
  if st.savedPlayers.any (fun item => decide (item.player_id = player.player_id)) then st
  else if 10 ≤ st.savedPlayers.length then st
  else
    { savedPlayers := st.savedPlayers ++ [player],
      activePlayerId := if falsyId st.activePlayerId then some player.player_id
                        else st.activePlayerId,
      activeCompareIds := st.activeCompareIds,
      selectedStatKeys := st.selectedStatKeys }

/-- Claim C7: removing a saved player removes the id from the compare set and
clears the active player exactly when it was the removed one, leaving the
stat-key selection alone; removing an id that is not saved changes nothing. -/
theorem removePlayer_spec (st : ModeState) (playerId : Int) :
    (st.savedPlayers.any (fun item => decide (item.player_id = playerId)) = true →
      (removePlayer st playerId).activeCompareIds =
          st.activeCompareIds.filter (fun id => decide (id ≠ playerId))
      ∧ playerId ∉ (removePlayer st playerId).activeCompareIds
      ∧ (st.activePlayerId = some playerId →
          (removePlayer st playerId).activePlayerId = none)
      ∧ (st.activePlayerId ≠ some playerId →
          (removePlayer st playerId).activePlayerId = st.activePlayerId)
      ∧ (removePlayer st playerId).savedPlayers =
          st.savedPlayers.eraseP (fun item => decide (item.player_id = playerId))
      ∧ (removePlayer st playerId).selectedStatKeys = st.selectedStatKeys)
    ∧ (st.savedPlayers.any (fun item => decide (item.player_id = playerId)) = false →
        removePlayer st playerId = st) := by
  constructor
  · intro hmem
    rw [removePlayer, if_pos hmem]
    refine ⟨rfl, ?_, ?_, ?_, rfl, rfl⟩
    · intro hcon
      have := (List.mem_filter.mp hcon).2
      simp at this
    · intro hact
      simp [hact]
    · intro hact
      simp [hact]
  · intro hmem
    rw [removePlayer, if_neg (by simp [hmem])]

/-- A saved player for the C7 witness. -/
def savedP1 : SavedPlayer := { player_id := 1, name := "A".toList, team := none }

/-- The C7 witness state: player 1 saved, active and in the compare set. -/
def stWitness7 : ModeState :=
  { savedPlayers := [savedP1], activePlayerId := some 1,
    activeCompareIds := [1, 2], selectedStatKeys := ["hr"] }

/-- Witness for C7: removing the active, compared player 1. -/
theorem removePlayer_spec_witness :
    (removePlayer stWitness7 1).activeCompareIds =
        stWitness7.activeCompareIds.filter (fun id => decide (id ≠ 1))
    ∧ (1 : Int) ∉ (removePlayer stWitness7 1).activeCompareIds
    ∧ (removePlayer stWitness7 1).activePlayerId = none := by
  have h := (removePlayer_spec stWitness7 1).1 (by decide)
  exact ⟨h.1, h.2.1, h.2.2.1 (by decide)⟩

/-- Claim C10: a successful add appends the player, and promotes it to
active exactly when the current active id is falsy (null or 0). -/
theorem addPlayerToMode_spec (st : ModeState) (player : SavedPlayer)
    (hdup : st.savedPlayers.any
      (fun item => decide (item.player_id = player.player_id)) = false)
    (hcap : st.savedPlayers.length < 10) :
    (addPlayerToMode st player).savedPlayers = st.savedPlayers ++ [player]
    ∧ (falsyId st.activePlayerId = true →
        (addPlayerToMode st player).activePlayerId = some player.player_id)
    ∧ (falsyId st.activePlayerId = false →
        (addPlayerToMode st player).activePlayerId = st.activePlayerId)
    ∧ (addPlayerToMode st player).activeCompareIds = st.activeCompareIds
    ∧ (addPlayerToMode st player).selectedStatKeys = st.selectedStatKeys := by
  rw [addPlayerToMode, if_neg (by simp [hdup]), if_neg (by omega)]
  refine ⟨rfl, ?_, ?_, rfl, rfl⟩
  · intro h
    simp [h]
  · intro h
    simp [h]

/-- The player added in the C10 witness. -/
def savedP10 : SavedPlayer := { player_id := 4, name := "D".toList, team := none }

/-- Witness for C10: adding to an empty mode state makes the player active. -/
theorem addPlayerToMode_spec_witness :
    (addPlayerToMode
        { savedPlayers := [], activePlayerId := none,
          activeCompareIds := [], selectedStatKeys := [] } savedP10).savedPlayers
      = [savedP10]
    ∧ (addPlayerToMode
        { savedPlayers := [], activePlayerId := none,
          activeCompareIds := [], selectedStatKeys := [] } savedP10).activePlayerId
      = some 4 := by
  have h := addPlayerToMode_spec
    { savedPlayers := [], activePlayerId := none,
      activeCompareIds := [], selectedStatKeys := [] } savedP10
    (by decide) (by decide)
  exact ⟨h.1, h.2.1 (by decide)⟩

/-! ## Range-mode enforcement on the stat selection (C9) -/

/-- `statsByKey.get(key)`: the map is built by `set(item.key, item)` over the
config list, so later entries overwrite earlier ones. -/
def statsByKeyLookup (cfgs : List StatConfig) (key : String) : Option StatConfig :=
  cfgs.reverse.find? (fun c => decide (c.key = key))

/-- Embedding of `isRangeSupported`:
`Boolean(config && config.range_supported)`. -/
def isRangeSupported (cfgs : List StatConfig) (key : String) : Bool :=
  match statsByKeyLookup cfgs key with
  | some c => c.range_supported
  | none => false

/-- Embedding of `enforceRangeSelections`: outside range mode the selection
is untouched; in range mode every selected key that is not range-supported is
deleted from the selection (and its checkbox unchecked). -/
def enforceRangeSelections (rangeMode : Bool) (cfgs : List StatConfig)
    (selected : List String) : List String :=
  if !rangeMode then selected
  else
    let seasonOnlyKeys := selected.filter (fun k => !isRangeSupported cfgs k)
    if seasonOnlyKeys.isEmpty then selected
    else selected.filter (fun k => isRangeSupported cfgs k)

/-- Claim C9: with range mode on, enforcement leaves exactly the
range-supported keys (deleting every season-only key), so afterwards every
selected key has a stat definition with `range_supported`; with range mode
off the selection is untouched. -/
theorem enforceRangeSelections_spec (cfgs : List StatConfig) (selected : List String) :
    enforceRangeSelections true cfgs selected =
        selected.filter (fun k => isRangeSupported cfgs k)
    ∧ (∀ k ∈ enforceRangeSelections true cfgs selected,
        isRangeSupported cfgs k = true)
    ∧ (∀ k, isRangeSupported cfgs k = true →
        ∃ c, statsByKeyLookup cfgs k = some c ∧ c.range_supported = true)
    ∧ enforceRangeSelections false cfgs selected = selected := by
  have hmain : enforceRangeSelections true cfgs selected =
      selected.filter (fun k => isRangeSupported cfgs k) := by
    rw [enforceRangeSelections]
    simp only [Bool.not_true, if_false]
    by_cases hempty : (selected.filter (fun k => !isRangeSupported cfgs k)).isEmpty
    · rw [if_pos hempty]
      have hall : ∀ k ∈ selected, isRangeSupported cfgs k = true := by
        intro k hk
        by_contra hnot
        have hkf : (!isRangeSupported cfgs k) = true := by
          cases hv : isRangeSupported cfgs k
          · rfl
          · exact absurd hv hnot
        have : k ∈ selected.filter (fun k => !isRangeSupported cfgs k) :=
          List.mem_filter.mpr ⟨hk, hkf⟩
        rw [List.isEmpty_iff] at hempty
        rw [hempty] at this
        cases this
      exact (List.filter_eq_self.mpr (by
        intro k hk
        simpa using hall k hk)).symm
    · simp [hempty]
  refine ⟨hmain, ?_, ?_, rfl⟩
  · intro k hk
    rw [hmain] at hk
    simpa using (List.mem_filter.mp hk).2
  · intro k hk
    rw [isRangeSupported] at hk
    cases hc : statsByKeyLookup cfgs k with
    | none => rw [hc] at hk; cases hk
    | some c =>
        rw [hc] at hk
        exact ⟨c, rfl, hk⟩

/-- A range-supported stat config for the C9 witness. -/
def cfgRangeOk : StatConfig :=
  { key := "avg", label := [], description := [], lower_is_better := false,
    range_supported := true }

/-- A season-only stat config for the C9 witness. -/
def cfgSeasonOnly : StatConfig :=
  { key := "war", label := [], description := [], lower_is_better := false,
    range_supported := false }

/-- Witness for C9: enforcement over a mixed selection keeps only the
range-supported key, and that key is range-supported. -/
theorem enforceRangeSelections_spec_witness :
    enforceRangeSelections true [cfgRangeOk, cfgSeasonOnly] ["avg", "war"] = ["avg"]
    ∧ isRangeSupported [cfgRangeOk, cfgSeasonOnly] "avg" = true := by
  constructor
  · have h := (enforceRangeSelections_spec [cfgRangeOk, cfgSeasonOnly] ["avg", "war"]).1
    rw [h]
    rfl
  · exact (enforceRangeSelections_spec [cfgRangeOk, cfgSeasonOnly] ["avg", "war"]).2.1
      "avg" (by rw [(enforceRangeSelections_spec [cfgRangeOk, cfgSeasonOnly] ["avg", "war"]).1]; decide)

/-! ## Persistence (loadPersistedState, C8) -/

/-- A persisted leaderboard selection in object form; fields of the wrong
JS type are modelled as `none` (the normalizer maps them to their defaults
exactly as the `typeof` checks do). -/
structure SavedLBObj where
  statKey : Option String
  meta : Option String
  output : Option String
  year : Option String
  pitcherRole : Option String
deriving DecidableEq, Repr

/-- A persisted per-mode leaderboard entry: legacy bare string or object. -/
inductive SavedLB
  | str (s : String)
  | obj (o : SavedLBObj)
deriving DecidableEq, Repr

/-- The in-memory leaderboard selection produced by
`normalizeLeaderboardState`. -/
structure LeaderboardSel where
  statKey : Option String
  meta : String
  output : String
  year : Option String
  pitcherRole : Option String
deriving DecidableEq, Repr

/-- Embedding of `normalizeLeaderboardState` (note `if (!saved)` catches the
empty string, which is falsy in JS). -/
def normalizeLeaderboardState (saved : Option SavedLB) : LeaderboardSel :=
  match saved with
  | none =>
      { statKey := none, meta := "", output := "", year := none, pitcherRole := none }
  | some (SavedLB.str s) =>
      if s = "" then
        { statKey := none, meta := "", output := "", year := none, pitcherRole := none }
      else
        { statKey := some s, meta := "", output := "", year := none, pitcherRole := none }
  | some (SavedLB.obj o) =>
      { statKey := o.statKey, meta := o.meta.getD "", output := o.output.getD "",
        year := o.year, pitcherRole := o.pitcherRole }

/-- Embedding of `normalizePitcherRole`: anything other than the two role
strings falls back to the default role, starters. -/
def normalizePitcherRole (role : Option String) : Option String :=
  if role = some "starters" ∨ role = some "relievers" then role else some "starters"

/-- A persisted per-mode state block (array/number/string type filters of
`restoreModeState` are reflected in the field types). -/
structure SavedModeState where
  savedPlayers : List SavedPlayer
  activePlayerId : Option Int
  activeCompareIds : List Int
  selectedStatKeys : List String
deriving DecidableEq, Repr

/-- Embedding of `restoreModeState`: absent block leaves the mode state
untouched, a present block replaces every selection field. -/
def restoreModeState (st : ModeState) (saved : Option SavedModeState) : ModeState :=
  match saved with
  | none => st
  | some sv =>
      { savedPlayers := sv.savedPlayers,
        activePlayerId := sv.activePlayerId,
        activeCompareIds := sv.activeCompareIds,
        selectedStatKeys := sv.selectedStatKeys }

/-- The persisted envelope.  `version` is `some n` for a numeric version and
`none` for a missing or non-numeric one (every such value fails the
`payload.version !== 1` test the same way). -/
structure Payload where
  version : Option Int
  year : Option String
  mode : Option String
  rangeEnabled : Option Bool
  rangeStart : Option String
  rangeEnd : Option String
  modesHitters : Option SavedModeState
  modesPitchers : Option SavedModeState
  lbHitters : Option SavedLB
  lbPitchers : Option SavedLB
deriving DecidableEq, Repr

/-- The restorable application state touched by `loadPersistedState`. -/
structure AppState where
  year : String
  mode : String
  rangeEnabled : Bool
  rangeStart : String
  rangeEnd : String
  hitters : ModeState
  pitchers : ModeState
  lbHitters : LeaderboardSel
  lbPitchers : LeaderboardSel
  activeLeaderboardStat : Option String
deriving DecidableEq, Repr

/-- Embedding of `loadPersistedState`: a missing payload or one whose
`version !== 1` applies nothing; otherwise every recognized field is applied
(`payload.year`/`payload.mode` only when truthy, range fields when of the
right type, mode blocks when present, leaderboard entries normalized, the
pitchers role re-normalized, and the active leaderboard stat re-derived with
`|| null` collapsing an empty string). -/
def loadPersistedState (st : AppState) (payload : Option Payload) : AppState :=
  match payload with
  | none => st
  | some p =>
      if p.version ≠ some 1 then st
      else
        let year := match p.year with
          | some y => if y = "" then st.year else y
          | none => st.year
        let mode := match p.mode with
          | some m => if m = "" then st.mode else m
          | none => st.mode
        let lbH := normalizeLeaderboardState p.lbHitters
        let lbP0 := normalizeLeaderboardState p.lbPitchers
        let lbP : LeaderboardSel :=
          { lbP0 with pitcherRole := normalizePitcherRole lbP0.pitcherRole }
        { year := year,
          mode := mode,
          rangeEnabled := p.rangeEnabled.getD st.rangeEnabled,
          rangeStart := p.rangeStart.getD st.rangeStart,
          rangeEnd := p.rangeEnd.getD st.rangeEnd,
          hitters := restoreModeState st.hitters p.modesHitters,
          pitchers := restoreModeState st.pitchers p.modesPitchers,
          lbHitters := lbH,
          lbPitchers := lbP,
          activeLeaderboardStat :=
            match (if mode = "pitchers" then lbP.statKey else lbH.statKey) with
            | some k => if k = "" then none else some k
            | none => none }

/-- Claim C8: a payload with an unrecognized version (or no payload at all)
applies nothing: every field of the state, and in particular a default
state, is left exactly as it was; no sub-field of the payload is partially
applied. -/
theorem loadPersistedState_version_gate (st : AppState) (p : Payload)
    (hv : p.version ≠ some 1) :
    loadPersistedState st (some p) = st ∧ loadPersistedState st none = st := by
  constructor
  · rw [loadPersistedState]
    exact if_pos hv
  · rfl

/-- Default (empty) per-mode state. -/
def defaultModeState : ModeState :=
  { savedPlayers := [], activePlayerId := none, activeCompareIds := [],
    selectedStatKeys := [] }

/-- Default leaderboard selection. -/
def defaultLBSel : LeaderboardSel :=
  { statKey := none, meta := "", output := "", year := none, pitcherRole := none }

/-- Default application state. -/
def defaultAppState : AppState :=
  { year := "2025", mode := "hitters", rangeEnabled := false, rangeStart := "",
    rangeEnd := "", hitters := defaultModeState, pitchers := defaultModeState,
    lbHitters := defaultLBSel, lbPitchers := defaultLBSel,
    activeLeaderboardStat := none }

/-- A rich version-2 payload: every sub-field is recognizable on its own. -/
def payloadV2 : Payload :=
  { version := some 2, year := some "2024", mode := some "pitchers",
    rangeEnabled := some true, rangeStart := some "2024-05-01",
    rangeEnd := some "2024-06-01",
    modesHitters := some
      { savedPlayers := [{ player_id := 5, name := "X".toList, team := none }],
        activePlayerId := some 5, activeCompareIds := [5],
        selectedStatKeys := ["hr"] },
    modesPitchers := none,
    lbHitters := some (SavedLB.str "era"),
    lbPitchers := none }

/-- Witness for C8: loading the version-2 payload over the default state
leaves the default state untouched. -/
theorem loadPersistedState_version_gate_witness :
    loadPersistedState defaultAppState (some payloadV2) = defaultAppState :=
  (loadPersistedState_version_gate defaultAppState payloadV2 (by decide)).1
